import Mathlib

/-!
# Verification of the Wikipedia-to-PowerPoint pipeline (`tools.py`)

A shallow embedding of the repository's two classes — `WikipediaAgent`
(content retrieval) and `PowerPointTool` (document assembly) — together with
the module-level batch helpers `create_knowledge_base` and
`search_and_summarize`.  Remote HTTP traffic is modelled by an explicit
transport environment: every `requests.get` call site is represented by a
`FetchResult` value recording either a raised transport exception
(`requests.RequestException`) or a delivered response with its status code
and parsed body.  Raised Python exceptions are modelled with `Except String`.

Modelling notes, applying throughout:
* Python's `re` character classes `\s` and `\d` also match some non-ASCII
  code points; the embedding fixes `\s` to the standard Unicode whitespace
  list below and `\d` to the ASCII digits.  No result depends on the exotic
  code points.
* JSON response bodies are modelled by the `Json` inductive; dictionary
  access (`.get`, `[...]`, `in`, `.items()`, `.values()`) is embedded with
  the same failure behaviour as Python on non-object values.  String-valued
  fields (titles, snippets, extracts) are required to be JSON strings; the
  Python code would pass any value through untyped.
* Exception message strings are abbreviated (the Python code interpolates
  the full request context); no theorem depends on message text.
-/

/-! ## Python string primitives

The scanning functions below mirror `re.sub` left-to-right scanning: at each
position try the pattern; on a match, emit the replacement and resume after
the match; otherwise keep one character and move on.  Each scanner is made
structurally recursive by an explicit bound (`fuel`), always instantiated
with the length of the scanned list, so every definition evaluates inside
the kernel; the bound is never reached because each step consumes at least
one character. -/

/-- Whitespace, as matched by Python's `\s` and stripped by `str.strip()`. -/
def isPySpace (c : Char) : Bool :=
  c = ' ' ∨ c = '\t' ∨ c = '\n' ∨ c = '\r' ∨ c = '\u000b' ∨ c = '\u000c' ∨
  c = '\u001c' ∨ c = '\u001d' ∨ c = '\u001e' ∨ c = '\u001f' ∨ c = '\u0085' ∨
  c = '\u00a0' ∨ c = '\u1680' ∨ ('\u2000' ≤ c ∧ c ≤ '\u200a') ∨
  c = '\u2028' ∨ c = '\u2029' ∨ c = '\u202f' ∨ c = '\u205f' ∨ c = '\u3000'

/-- `str.strip()`: drop leading and trailing whitespace. -/
def pyStrip (l : List Char) : List Char :=
  ((l.dropWhile isPySpace).reverse.dropWhile isPySpace).reverse

/-- The tail of a match of `<[^>]+>` once the `<` and one non-`>` character
have been consumed: skip further non-`>` characters, then consume the `>`. -/
def skipToGt : List Char → Option (List Char)
  | [] => none
  | c :: cs => if c = '>' then some cs else skipToGt cs

/-- Given the characters after a `<`, return the suffix after a match of
`<[^>]+>` starting at that `<`, or `none` when the regex does not match
there (next character is `>`, or no `>` follows at all). -/
def dropTag : List Char → Option (List Char)
  | [] => none
  | c :: cs => if c = '>' then none else skipToGt cs

/-- One pass of `re.sub(r'<[^>]+>', '', text)`, fuel-bounded. -/
def stripTagsF : Nat → List Char → List Char
  | 0, l => l
  | _ + 1, [] => []
  | fuel + 1, c :: cs =>
    if c = '<' then
      match dropTag cs with
      | some rest => stripTagsF fuel rest
      | none => c :: stripTagsF fuel cs
    else c :: stripTagsF fuel cs

/-- `re.sub(r'<[^>]+>', '', text)`: remove every tag span, scanning left to
right. -/
def stripTags (l : List Char) : List Char :=
  stripTagsF l.length l

/-- `re.sub(r'\s+', ' ', text)`, fuel-bounded. -/
def collapseWsF : Nat → List Char → List Char
  | 0, l => l
  | _ + 1, [] => []
  | fuel + 1, c :: cs =>
    if isPySpace c then ' ' :: collapseWsF fuel (cs.dropWhile isPySpace)
    else c :: collapseWsF fuel cs

/-- `re.sub(r'\s+', ' ', text)`: collapse every whitespace run to one space. -/
def collapseWs (l : List Char) : List Char :=
  collapseWsF l.length l

/-- The tail of a match of `\[\d+\]` once the `[` and one digit have been
consumed: skip further digits, then consume the `]`. -/
def skipDigits : List Char → Option (List Char)
  | [] => none
  | c :: cs => if c = ']' then some cs else if c.isDigit then skipDigits cs else none

/-- Given the characters after a `[`, return the suffix after a match of
`\[\d+\]` starting at that `[`, or `none` when the regex does not match. -/
def dropRef : List Char → Option (List Char)
  | [] => none
  | c :: cs => if c.isDigit then skipDigits cs else none

/-- One pass of `re.sub(r'\[\d+\]', '', text)`, fuel-bounded. -/
def removeRefsF : Nat → List Char → List Char
  | 0, l => l
  | _ + 1, [] => []
  | fuel + 1, c :: cs =>
    if c = '[' then
      match dropRef cs with
      | some rest => removeRefsF fuel rest
      | none => c :: removeRefsF fuel cs
    else c :: removeRefsF fuel cs

/-- `re.sub(r'\[\d+\]', '', text)`: remove bracketed all-digit reference
markers. -/
def removeRefs (l : List Char) : List Char :=
  removeRefsF l.length l

/-- `str.replace(pat, rep)`, fuel-bounded: replace every non-overlapping
occurrence of `pat`, scanning left to right.  Only called with non-empty
patterns. -/
def replaceAllF (pat rep : List Char) : Nat → List Char → List Char
  | 0, l => l
  | _ + 1, [] => []
  | fuel + 1, c :: cs =>
    if pat.isPrefixOf (c :: cs) then rep ++ replaceAllF pat rep fuel ((c :: cs).drop pat.length)
    else c :: replaceAllF pat rep fuel cs

/-- `str.replace(pat, rep)` on strings. -/
def pyReplace (s pat rep : String) : String :=
  String.mk (replaceAllF pat.data rep.data s.data.length s.data)

/-- `WikipediaAgent._extract_text_from_html` (src/tools.py:282-290):
remove tags, collapse whitespace, remove reference numbers, strip. -/
def extract_text_from_html (html : String) : String :=
  String.mk (pyStrip (removeRefs (collapseWs (stripTags html.data))))

/-- `WikipediaAgent._clean_html` (src/tools.py:292-298): remove tags, decode
the four HTML entities in the source's order, strip. -/
def clean_html (text : String) : String :=
  let t1 := String.mk (stripTags text.data)
  let t2 := pyReplace t1 "&quot;" "\""
  let t3 := pyReplace t2 "&amp;" "&"
  let t4 := pyReplace t3 "&lt;" "<"
  let t5 := pyReplace t4 "&gt;" ">"
  String.mk (pyStrip t5.data)

/-- The spec-side text-cleaning algorithm, written from the words of §4.1 —
"remove all `<...>` tag spans; collapse any run of whitespace to a single
space; remove bracketed all-digit reference markers; trim leading/trailing
whitespace" — for comparison against the two source cleaners. -/
def specTextClean (s : String) : String :=
  String.mk (pyStrip (removeRefs (collapseWs (stripTags s.data))))


/-! ## JSON values and Python dictionary operations

Parsed response bodies (`response.json()`).  Objects keep their fields in
insertion order, as Python dictionaries do; well-formed responses have
distinct keys.  Operations that Python only defines on dictionaries fail
with an exception on other values, as the interpreter would. -/

inductive Json where
  | null : Json
  | str (s : String) : Json
  | num (n : Int) : Json
  | bool (b : Bool) : Json
  | arr (items : List Json) : Json
  | obj (fields : List (String × Json)) : Json

/-- First field bound to `k`, in insertion order. -/
def jsonLookup (fields : List (String × Json)) (k : String) : Option Json :=
  match fields with
  | [] => none
  | f :: fs => if f.1 = k then some f.2 else jsonLookup fs k

/-- Python `d.get(k, default)`: raises on non-dictionaries. -/
def Json.dGet (j : Json) (k : String) (dflt : Json) : Except String Json :=
  match j with
  | .obj fields => .ok ((jsonLookup fields k).getD dflt)
  | _ => .error "AttributeError: get"

/-- Python `d[k]` subscript on a dictionary. -/
def Json.dItem (j : Json) (k : String) : Except String Json :=
  match j with
  | .obj fields =>
    match jsonLookup fields k with
    | some v => .ok v
    | none => .error "KeyError"
  | _ => .error "TypeError: subscript"

/-- Python `k in d`, modelled for dictionary values (the only use in the
source). -/
def Json.hasKey (j : Json) (k : String) : Except String Bool :=
  match j with
  | .obj fields => .ok (fields.any (fun f => f.1 = k))
  | _ => .error "TypeError: in"

/-- Python `d.values()`. -/
def Json.valuesList (j : Json) : Except String (List Json) :=
  match j with
  | .obj fields => .ok (fields.map Prod.snd)
  | _ => .error "AttributeError: values"

/-- Python `d.items()`. -/
def Json.itemsList (j : Json) : Except String (List (String × Json)) :=
  match j with
  | .obj fields => .ok fields
  | _ => .error "AttributeError: items"

/-- Iterating over a JSON array (`for x in xs`). -/
def Json.asArray (j : Json) : Except String (List Json) :=
  match j with
  | .arr items => .ok items
  | _ => .error "TypeError: not iterable"

/-- A JSON value used where the source expects a string. -/
def Json.asString (j : Json) : Except String String :=
  match j with
  | .str s => .ok s
  | _ => .error "TypeError: expected str"

/-! ## The transport environment

One `requests.get` call either raises a `requests.RequestException` (`exn`)
or delivers a response; `resp` records the final status code and the parsed
body (`response.json()` for the API endpoints, `response.text` for the HTML
content endpoint).  `response.raise_for_status()` raises an `HTTPError` — a
`RequestException` subclass — exactly for status codes in `[400, 600)`. -/

inductive FetchResult (β : Type) where
  | exn (msg : String) : FetchResult β
  | resp (status : Nat) (body : β) : FetchResult β

/-- Does `raise_for_status()` raise for this status code? -/
def isHttpError (status : Nat) : Bool :=
  400 ≤ status ∧ status < 600

/-- The four remote calls one `get_page(title)` invocation can make, plus the
single calls behind `search` / `get_summary`, keyed by call site. -/
structure Transport where
  content : FetchResult String
  summary : FetchResult Json
  categories : FetchResult Json
  links : FetchResult Json

/-! ## URL construction -/

/-- UTF-8 encoding of one character, as byte values. -/
def utf8Bytes (c : Char) : List Nat :=
  let n := c.toNat
  if n < 0x80 then [n]
  else if n < 0x800 then [0xc0 + n / 64, 0x80 + n % 64]
  else if n < 0x10000 then [0xe0 + n / 4096, 0x80 + n / 64 % 64, 0x80 + n % 64]
  else [0xf0 + n / 262144, 0x80 + n / 4096 % 64, 0x80 + n / 64 % 64, 0x80 + n % 64]

/-- Upper-case hexadecimal digit. -/
def hexDigit (n : Nat) : Char :=
  if n < 10 then Char.ofNat ('0'.toNat + n) else Char.ofNat ('A'.toNat + n - 10)

/-- `urllib.parse.quote` on one character: ASCII letters, digits, `_.-~` and
the default-safe `/` pass through; every other character is percent-encoded
byte by byte. -/
def quoteChar (c : Char) : List Char :=
  if c.isAlphanum ∨ c = '_' ∨ c = '.' ∨ c = '-' ∨ c = '~' ∨ c = '/' then [c]
  else (utf8Bytes c).flatMap (fun b => ['%', hexDigit (b / 16), hexDigit (b % 16)])

/-- `urllib.parse.quote(title)` with the default `safe='/'`. -/
def pyQuote (s : String) : String :=
  String.mk (s.data.flatMap quoteChar)

/-- The page URL built in `search` and `get_page`:
`f"https://{self.language}.wikipedia.org/wiki/{quote(title)}"`. -/
def pageUrl (language title : String) : String :=
  "https://" ++ language ++ ".wikipedia.org/wiki/" ++ pyQuote title

/-! ## WikipediaAgent operations -/

/-- `WikipediaPage` (src/tools.py:17-25). -/
structure WikipediaPage where
  title : String
  content : String
  url : String
  summary : String
  categories : List String
  links : List String
deriving DecidableEq

/-- `WikipediaAgent._get_page_links` (src/tools.py:226-251): a transport
exception or an HTTP error status is swallowed into `[]`; errors walking a
malformed body propagate (the `except` clause only catches
`requests.RequestException`). -/
def get_page_links (callResult : FetchResult Json) : Except String (List String) :=
  match callResult with
  | .exn _ => .ok []
  | .resp status body =>
    if isHttpError status then .ok []
    else do
      let query ← body.dGet "query" (Json.obj [])
      let pages ← query.dGet "pages" (Json.obj [])
      let pageList ← pages.valuesList
      pageList.foldlM
        (fun acc pageData => do
          let hasLinks ← pageData.hasKey "links"
          if hasLinks then do
            let linksJson ← pageData.dItem "links"
            let linkList ← linksJson.asArray
            let titles ← linkList.mapM (fun link => do
              let t ← link.dItem "title"
              t.asString)
            pure (acc ++ titles)
          else pure acc)
        []

/-- `WikipediaAgent._get_page_categories` (src/tools.py:253-280): same
degrade-to-`[]` shape as `_get_page_links`, with `"Category:"` stripped from
each title by `str.replace`. -/
def get_page_categories (callResult : FetchResult Json) : Except String (List String) :=
  match callResult with
  | .exn _ => .ok []
  | .resp status body =>
    if isHttpError status then .ok []
    else do
      let query ← body.dGet "query" (Json.obj [])
      let pages ← query.dGet "pages" (Json.obj [])
      let pageList ← pages.valuesList
      pageList.foldlM
        (fun acc pageData => do
          let hasCats ← pageData.hasKey "categories"
          if hasCats then do
            let catsJson ← pageData.dItem "categories"
            let catList ← catsJson.asArray
            let titles ← catList.mapM (fun cat => do
              let t ← cat.dItem "title"
              let s ← t.asString
              pure (pyReplace s "Category:" ""))
            pure (acc ++ titles)
          else pure acc)
        []

/-- `WikipediaAgent.get_page` (src/tools.py:90-134).  The transport carries
the outcomes of the four remote calls this invocation would make.  A raised
`RequestException` anywhere under the `try` — including the summary call —
is re-raised as `Exception(f"Failed to retrieve page ...")`; a 404 on the
content call returns `None` before any further call is made. -/
def get_page (language : String) (tr : Transport) (title : String)
    (include_links : Bool) : Except String (Option WikipediaPage) :=
  match tr.content with
  | .exn e => .error ("Failed to retrieve page " ++ title ++ ": " ++ e)
  | .resp status htmlBody =>
    if status = 404 then .ok none
    else if isHttpError status then
      .error ("Failed to retrieve page " ++ title ++ ": HTTP error " ++ toString status)
    else
      match tr.summary with
      | .exn e => .error ("Failed to retrieve page " ++ title ++ ": " ++ e)
      | .resp summaryStatus summaryBody => do
        let summaryData := if summaryStatus = 200 then summaryBody else Json.obj []
        let plainText := extract_text_from_html htmlBody
        let categories ← get_page_categories tr.categories
        let links ← if include_links then get_page_links tr.links else pure []
        let extractJson ← summaryData.dGet "extract" (Json.str "")
        let summary ← extractJson.asString
        pure (some
          { title := title
            content := plainText
            url := pageUrl language title
            summary := summary
            categories := categories
            links := links })

/-- `SearchResult`: one element of the list `search` returns
(src/tools.py:77-83). -/
structure SearchResult where
  title : String
  snippet : String
  size : Int
  timestamp : String
  url : String
deriving DecidableEq

/-- `WikipediaAgent.search` (src/tools.py:50-88): transport failure and HTTP
error statuses raise `Exception(f"Search failed: ...")`; each delivered item
yields one result with a cleaned snippet. -/
def search (language : String) (callResult : FetchResult Json) :
    Except String (List SearchResult) :=
  match callResult with
  | .exn e => .error ("Search failed: " ++ e)
  | .resp status body =>
    if isHttpError status then .error ("Search failed: HTTP error " ++ toString status)
    else do
      let query ← body.dGet "query" (Json.obj [])
      let items ← query.dGet "search" (Json.arr [])
      let itemList ← items.asArray
      itemList.mapM (fun item => do
        let titleJson ← item.dItem "title"
        let title ← titleJson.asString
        let snippetJson ← item.dGet "snippet" (Json.str "")
        let snippet ← snippetJson.asString
        let sizeJson ← item.dGet "size" (Json.num 0)
        let size ← match sizeJson with
          | .num n => pure n
          | _ => Except.error "TypeError: expected int"
        let tsJson ← item.dGet "timestamp" (Json.str "")
        let timestamp ← tsJson.asString
        pure
          { title := title
            snippet := clean_html snippet
            size := size
            timestamp := timestamp
            url := pageUrl language title })

/-- `WikipediaAgent.get_summary` (src/tools.py:136-170): returns the extract
of the first page whose id is not the `-1` missing sentinel, `None` when
every page id is `-1` (or no pages were delivered); transport failure and
HTTP error statuses raise. -/
def get_summary (callResult : FetchResult Json) (title : String) :
    Except String (Option String) :=
  match callResult with
  | .exn e => .error ("Failed to get summary for " ++ title ++ ": " ++ e)
  | .resp status body =>
    if isHttpError status then
      .error ("Failed to get summary for " ++ title ++ ": HTTP error " ++ toString status)
    else do
      let query ← body.dGet "query" (Json.obj [])
      let pages ← query.dGet "pages" (Json.obj [])
      let items ← pages.itemsList
      match items.find? (fun kv => kv.1 ≠ "-1") with
      | some kv => do
        let extractJson ← kv.2.dGet "extract" (Json.str "")
        let s ← extractJson.asString
        pure (some s)
      | none => pure none

/-! ## Batch helpers (src/tools.py:302-353)

An agent session is modelled by the transports its calls would see: one
`Transport` per requested title for `create_knowledge_base`, and one search
call plus one summary call per returned title for `search_and_summarize`. -/

/-- Python `dict` insertion: overwrite in place when the key exists,
append otherwise. -/
def dictInsert (kb : List (String × WikipediaPage)) (k : String) (v : WikipediaPage) :
    List (String × WikipediaPage) :=
  if kb.any (fun p => p.1 = k) then kb.map (fun p => if p.1 = k then (k, v) else p)
  else kb ++ [(k, v)]

/-- `create_knowledge_base` (src/tools.py:302-326): for each topic call
`get_page`; a page is added to the dictionary, a `None` result and a raised
exception are only printed (`except Exception` catches every error
`get_page` can raise), and iteration continues. -/
def create_knowledge_base (language : String) (tr : String → Transport)
    (topics : List String) : List (String × WikipediaPage) :=
  topics.foldl
    (fun kb topic =>
      match get_page language (tr topic) topic true with
      | .ok (some page) => dictInsert kb topic page
      | .ok none => kb
      | .error _ => kb)
    []

/-- One element of the list `search_and_summarize` returns
(src/tools.py:346-351); `summary` is `None` when `get_summary` returned
`None`. -/
structure SummaryEntry where
  title : String
  url : String
  summary : Option String
  snippet : String
deriving DecidableEq

/-- The remote calls one `search_and_summarize` invocation can make: the
search call, then one summary call per returned title. -/
structure SasTransport where
  searchCall : FetchResult Json
  summaryOf : String → FetchResult Json

/-- `search_and_summarize` (src/tools.py:329-353): search, then call
`get_summary` for each result **with no enclosing try/except** — an
exception raised by any per-item summary call propagates to the caller. -/
def search_and_summarize (language : String) (tr : SasTransport) :
    Except String (List SummaryEntry) := do
  let results ← search language tr.searchCall
  results.mapM (fun r => do
    let summary ← get_summary (tr.summaryOf r.title) r.title
    pure
      { title := r.title
        url := r.url
        summary := summary
        snippet := r.snippet })

/-! ## PowerPointTool (src/tools.py:394-531)

The in-memory `Presentation` is a slide sequence; a slide holds its shapes
in order.  A text-bearing shape (placeholder or text box) holds its text
frame as a paragraph list; a picture has no `text` attribute.  `python-pptx`
reads a text frame back as its paragraph texts joined by newlines, and a
shape-level `text` assignment stores text whose read-back equals the
assigned string; paragraphs here keep the assigned string whole, which
leaves every read-back unchanged. -/

/-- One paragraph of a text frame: its text and outline (bullet) level. -/
structure Paragraph where
  text : String
  level : Nat
deriving DecidableEq

/-- A shape on a slide: `python-pptx` placeholders and text boxes carry a
text frame (`hasattr(shape, "text")` is true); pictures do not. -/
inductive PShape where
  | textShape (paras : List Paragraph) : PShape
  | picture (path : String) : PShape
deriving DecidableEq

/-- `hasattr(shape, "text")`. -/
def PShape.hasTextAttr : PShape → Bool
  | .textShape _ => true
  | .picture _ => false

/-- `"\n".join(...)`: Python newline join. -/
def joinNl : List String → String
  | [] => ""
  | [s] => s
  | s :: rest => s ++ "\n" ++ joinNl rest

/-- `shape.text`: the paragraph texts joined by newlines (empty for shapes
with no text frame; `get_slide_text` never reads those). -/
def PShape.textOf : PShape → String
  | .textShape paras => joinNl (paras.map Paragraph.text)
  | .picture _ => ""

/-- A slide: its shapes, in order. -/
structure PSlide where
  shapes : List PShape
deriving DecidableEq

/-- The `PowerPointTool` state: the in-memory `Presentation`'s slides. -/
structure PowerPointTool where
  prs : List PSlide
deriving DecidableEq

/-- `PowerPointTool()` / `create_new_presentation`: the default
`Presentation()` has no slides. -/
def newPresentation : PowerPointTool := { prs := [] }

/-- `load_presentation` (src/tools.py:403-410): the filesystem maps a path
to the slides of the artifact stored there, or `none` when
`os.path.exists` is false — in which case the method only prints
`"File not found"` and `self.prs` keeps its previous value. -/
def load_presentation (fs : String → Option (List PSlide)) (t : PowerPointTool)
    (path : String) : PowerPointTool :=
  match fs path with
  | some slides => { prs := slides }
  | none => t

/-- `add_title_slide` (src/tools.py:412-423): a title-layout slide whose
title and subtitle placeholders receive the two arguments. -/
def add_title_slide (t : PowerPointTool) (title subtitle : String) : PowerPointTool :=
  { prs := t.prs ++ [{ shapes := [.textShape [{ text := title, level := 0 }],
                                  .textShape [{ text := subtitle, level := 0 }]] }] }

/-- The content placeholder paragraphs `add_content_slide` builds:
`text_frame.clear()` leaves one empty paragraph, the first point overwrites
it via `paragraphs[0]`, and each further point is an `add_paragraph()`; every
point is assigned outline level 0. -/
def contentParas (points : List String) : List Paragraph :=
  match points with
  | [] => [{ text := "", level := 0 }]
  | _ => points.map (fun p => { text := p, level := 0 })

/-- `add_content_slide` (src/tools.py:425-446): a title-and-content slide;
`text_frame.clear()` leaves one empty paragraph, the first point overwrites
it via `paragraphs[0]`, and each further point is an `add_paragraph()`; every
point is assigned outline level 0. -/
def add_content_slide (t : PowerPointTool) (title : String) (points : List String) :
    PowerPointTool :=
  { prs := t.prs ++ [{ shapes := [.textShape [{ text := title, level := 0 }],
                                  .textShape (contentParas points)] }] }

/-- `add_blank_slide` (src/tools.py:448-452): the blank layout has no
placeholder shapes. -/
def add_blank_slide (t : PowerPointTool) : PowerPointTool :=
  { prs := t.prs ++ [{ shapes := [] }] }

/-- `get_slide_count` (src/tools.py:500-502). -/
def get_slide_count (t : PowerPointTool) : Nat :=
  t.prs.length

/-- The body text collected by `get_slide_text` for one slide: every shape
with a `text` attribute contributes, joined by newlines. -/
def slideText (s : PSlide) : String :=
  joinNl ((s.shapes.filter PShape.hasTextAttr).map PShape.textOf)

/-- `get_slide_text` (src/tools.py:504-516): indices at or beyond the slide
count get the sentinel string; every other index reaches
`self.prs.slides[slide_index]`, which resolves negative indices from the end
as Python sequences do and raises `IndexError` below `-len`. -/
def get_slide_text (t : PowerPointTool) (slide_index : Int) : Except String String :=
  if (t.prs.length : Int) ≤ slide_index then .ok "Slide index out of range"
  else
    let resolved : Int :=
      if slide_index < 0 then slide_index + (t.prs.length : Int) else slide_index
    if resolved < 0 then .error "IndexError: slide index out of range"
    else
      match t.prs[resolved.toNat]? with
      | some slide => .ok (slideText slide)
      | none => .error "IndexError: slide index out of range"

/-! ## Concrete fixtures

Closed transports, filesystems and records used to evaluate the operations
at specific inputs. -/

/-- A content fetch answered with HTTP 404. -/
def notFoundTransport : Transport :=
  { content := .resp 404 "not found"
    summary := .exn "unused"
    categories := .exn "unused"
    links := .exn "unused" }

/-- Content delivered, but the summary call raises a transport exception. -/
def summaryRaisesTransport : Transport :=
  { content := .resp 200 "x"
    summary := .exn "connection reset"
    categories := .exn "timeout"
    links := .exn "timeout" }

/-- Content delivered, summary answered with a 503, categories and links
raising. -/
def degradedTransport : Transport :=
  { content := .resp 200 "<p>Hi</p>"
    summary := .resp 503 Json.null
    categories := .exn "timeout"
    links := .exn "timeout" }

/-- A fully successful page fetch. -/
def successTransport : Transport :=
  { content := .resp 200 "<p>Body</p>"
    summary := .resp 200 (Json.obj [("extract", Json.str "Summary")])
    categories := .exn "timeout"
    links := .exn "timeout" }

/-- The page record `get_page "en" successTransport "A B" true` produces. -/
def successPage : WikipediaPage :=
  { title := "A B"
    content := "Body"
    url := "https://en.wikipedia.org/wiki/A%20B"
    summary := "Summary"
    categories := []
    links := [] }

/-- Every remote call raises. -/
def unreachableTransport : Transport :=
  { content := .exn "dns failure"
    summary := .exn "dns failure"
    categories := .exn "dns failure"
    links := .exn "dns failure" }

/-- A two-topic batch session: the topic `Alpha` is unreachable, every other
topic succeeds. -/
def kbTransports : String → Transport :=
  fun topic => if topic = "Alpha" then unreachableTransport else successTransport

/-- A search returning one result whose follow-up summary call raises. -/
def sasRaisingTransport : SasTransport :=
  { searchCall := .resp 200 (Json.obj [("query", Json.obj [("search", Json.arr
      [Json.obj [("title", Json.str "T"), ("snippet", Json.str "snip"),
                 ("size", Json.num 3), ("timestamp", Json.str "ts")]])])])
    summaryOf := fun _ => .exn "boom" }

/-- A filesystem with no files. -/
def emptyFs : String → Option (List PSlide) :=
  fun _ => none

/-! ## Ordered containment of fragments in a character list -/

/-- `SeqContains s parts`: the `parts` occur inside `s` as disjoint
substrings, in the given order. -/
def SeqContains : List Char → List (List Char) → Prop
  | _, [] => True
  | s, p :: ps => ∃ a b, s = a ++ p ++ b ∧ SeqContains b ps

/-! ## Tag-span analysis

`hasTag l` decides whether `l` contains a substring matched by `<[^>]+>`,
i.e. whether one more `re.sub(r'<[^>]+>', '', ...)` pass would still find a
match somewhere. -/

/-- Does some position of `l` start a match of `<[^>]+>`? -/
def hasTag : List Char → Bool
  | [] => false
  | c :: cs => (c = '<' && (dropTag cs).isSome) || hasTag cs

theorem skipToGt_some_of {mid : List Char} (rest : List Char) (hm : '>' ∉ mid) :
    skipToGt (mid ++ '>' :: rest) = some rest := by
  induction mid with
  | nil => simp [skipToGt]
  | cons m ms ih =>
    have hm1 : m ≠ '>' := fun h => hm (h ▸ List.mem_cons_self m ms)
    have hm2 : '>' ∉ ms := fun h => hm (List.mem_cons_of_mem m h)
    simpa [skipToGt, hm1] using ih hm2

theorem of_skipToGt_some {cs rest : List Char} (h : skipToGt cs = some rest) :
    ∃ mid, cs = mid ++ '>' :: rest ∧ '>' ∉ mid := by
  induction cs generalizing rest with
  | nil => simp [skipToGt] at h
  | cons c cs ih =>
    by_cases hc : c = '>'
    · subst hc
      simp only [skipToGt, if_true, reduceIte, Option.some.injEq] at h
      exact ⟨[], by simp [h], by simp⟩
    · rw [skipToGt, if_neg hc] at h
      obtain ⟨mid, heq, hm⟩ := ih h
      exact ⟨c :: mid, by simp [heq], by
        intro hmem
        rcases List.mem_cons.mp hmem with h1 | h1
        · exact hc h1.symm
        · exact hm h1⟩

theorem of_skipToGt_none {cs : List Char} (h : skipToGt cs = none) : '>' ∉ cs := by
  induction cs with
  | nil => simp
  | cons c cs ih =>
    by_cases hc : c = '>'
    · subst hc; simp [skipToGt] at h
    · rw [skipToGt, if_neg hc] at h
      intro hmem
      rcases List.mem_cons.mp hmem with h1 | h1
      · exact hc h1.symm
      · exact ih h h1

theorem skipToGt_none_of {cs : List Char} (h : '>' ∉ cs) : skipToGt cs = none := by
  induction cs with
  | nil => rfl
  | cons c cs ih =>
    have hc : c ≠ '>' := fun hc => h (hc ▸ List.mem_cons_self c cs)
    rw [skipToGt, if_neg hc]
    exact ih (fun hm => h (List.mem_cons_of_mem c hm))

theorem dropTag_some_of {mid : List Char} (rest : List Char) (hne : mid ≠ [])
    (hm : '>' ∉ mid) : dropTag (mid ++ '>' :: rest) = some rest := by
  cases mid with
  | nil => exact absurd rfl hne
  | cons m ms =>
    have hm1 : m ≠ '>' := fun h => hm (h ▸ List.mem_cons_self m ms)
    have hm2 : '>' ∉ ms := fun h => hm (List.mem_cons_of_mem m h)
    simpa [dropTag, hm1] using skipToGt_some_of rest hm2

theorem of_dropTag_some {cs rest : List Char} (h : dropTag cs = some rest) :
    ∃ mid, cs = mid ++ '>' :: rest ∧ mid ≠ [] ∧ '>' ∉ mid := by
  cases cs with
  | nil => simp [dropTag] at h
  | cons c cs =>
    by_cases hc : c = '>'
    · simp [dropTag, hc] at h
    · rw [dropTag, if_neg hc] at h
      obtain ⟨mid, heq, hm⟩ := of_skipToGt_some h
      exact ⟨c :: mid, by simp [heq], by simp, by
        intro hmem
        rcases List.mem_cons.mp hmem with h1 | h1
        · exact hc h1.symm
        · exact hm h1⟩

theorem dropTag_none_of_not_mem {cs : List Char} (h : '>' ∉ cs) : dropTag cs = none := by
  cases cs with
  | nil => rfl
  | cons c cs =>
    have hc : c ≠ '>' := fun hc => h (hc ▸ List.mem_cons_self c cs)
    rw [dropTag, if_neg hc]
    exact skipToGt_none_of (fun hm => h (List.mem_cons_of_mem c hm))

theorem of_dropTag_none {cs : List Char} (h : dropTag cs = none) :
    cs = [] ∨ (∃ cs2, cs = '>' :: cs2) ∨ '>' ∉ cs := by
  cases cs with
  | nil => exact Or.inl rfl
  | cons c cs =>
    by_cases hc : c = '>'
    · exact Or.inr (Or.inl ⟨cs, by rw [hc]⟩)
    · rw [dropTag, if_neg hc] at h
      refine Or.inr (Or.inr ?_)
      intro hmem
      rcases List.mem_cons.mp hmem with h1 | h1
      · exact hc h1.symm
      · exact of_skipToGt_none h h1

theorem dropTag_some_length {cs rest : List Char} (h : dropTag cs = some rest) :
    rest.length < cs.length := by
  obtain ⟨mid, heq, _, _⟩ := of_dropTag_some h
  subst heq
  simp only [List.length_append, List.length_cons]
  omega

theorem dropTag_some_subset {cs rest : List Char} (h : dropTag cs = some rest) :
    ∀ a, a ∈ rest → a ∈ cs := by
  obtain ⟨mid, heq, _, _⟩ := of_dropTag_some h
  subst heq
  intro a ha
  simp [ha]

theorem hasTag_of_decomp (pre mid post : List Char) (hne : mid ≠ []) (hm : '>' ∉ mid) :
    hasTag (pre ++ '<' :: (mid ++ '>' :: post)) = true := by
  induction pre with
  | nil =>
    have : dropTag (mid ++ '>' :: post) = some post := dropTag_some_of post hne hm
    simp [hasTag, this]
  | cons p ps ih =>
    rw [List.cons_append, hasTag, ih, Bool.or_true]

theorem of_hasTag {l : List Char} (h : hasTag l = true) :
    ∃ pre mid post, l = pre ++ '<' :: (mid ++ '>' :: post) ∧ mid ≠ [] ∧ '>' ∉ mid := by
  induction l with
  | nil => simp [hasTag] at h
  | cons c cs ih =>
    rw [hasTag, Bool.or_eq_true] at h
    rcases h with h | h
    · rw [Bool.and_eq_true, decide_eq_true_eq, Option.isSome_iff_exists] at h
      obtain ⟨hc, rest, hrest⟩ := h
      obtain ⟨mid, heq, hne, hm⟩ := of_dropTag_some hrest
      exact ⟨[], mid, rest, by simp [hc, heq], hne, hm⟩
    · obtain ⟨pre, mid, post, heq, hne, hm⟩ := ih h
      exact ⟨c :: pre, mid, post, by simp [heq], hne, hm⟩

theorem hasTag_false_cons {c : Char} {cs : List Char} (h : hasTag (c :: cs) = false) :
    hasTag cs = false := by
  rw [hasTag, Bool.or_eq_false_iff] at h
  exact h.2

theorem hasTag_false_infix {pre mid suf : List Char}
    (h : hasTag (pre ++ mid ++ suf) = false) : hasTag mid = false := by
  by_contra hne
  obtain ⟨a, m, b, heq, hm1, hm2⟩ := of_hasTag (Bool.of_not_eq_false hne)
  have : pre ++ mid ++ suf = (pre ++ a) ++ '<' :: (m ++ '>' :: (b ++ suf)) := by
    simp [heq]
  rw [this, hasTag_of_decomp (pre ++ a) m (b ++ suf) hm1 hm2] at h
  simp at h

theorem hasTag_false_suffix (pre : List Char) {l : List Char}
    (h : hasTag (pre ++ l) = false) : hasTag l = false := by
  have h2 : hasTag (pre ++ l ++ []) = false := by simpa using h
  exact hasTag_false_infix h2

theorem dropTag_none_of_hasTag_lt {l : List Char}
    (hl : hasTag ('<' :: l) = false) : dropTag l = none := by
  rw [hasTag, Bool.or_eq_false_iff, Bool.and_eq_false_iff] at hl
  rcases hl.1 with h | h
  · simp at h
  · cases hd : dropTag l with
    | none => rfl
    | some r => rw [hd] at h; simp at h

theorem mem_stripTagsF {fuel : Nat} {l : List Char} {a : Char}
    (h : a ∈ stripTagsF fuel l) : a ∈ l := by
  induction fuel generalizing l with
  | zero => simpa [stripTagsF] using h
  | succ fuel ih =>
    cases l with
    | nil => simp [stripTagsF] at h
    | cons c cs =>
      by_cases hc : c = '<'
      · rw [stripTagsF, if_pos hc] at h
        cases hd : dropTag cs with
        | some rest =>
          rw [hd] at h
          exact List.mem_cons_of_mem c (dropTag_some_subset hd a (ih h))
        | none =>
          rw [hd] at h
          rcases List.mem_cons.mp h with h1 | h1
          · exact List.mem_cons.mpr (Or.inl h1)
          · exact List.mem_cons_of_mem c (ih h1)
      · rw [stripTagsF, if_neg hc] at h
        rcases List.mem_cons.mp h with h1 | h1
        · exact List.mem_cons.mpr (Or.inl h1)
        · exact List.mem_cons_of_mem c (ih h1)

theorem stripTagsF_nil (fuel : Nat) : stripTagsF fuel [] = [] := by
  cases fuel <;> rfl

theorem hasTag_stripTagsF {fuel : Nat} {l : List Char} (hlen : l.length ≤ fuel) :
    hasTag (stripTagsF fuel l) = false := by
  induction fuel generalizing l with
  | zero =>
    have : l = [] := List.length_eq_zero.mp (Nat.le_zero.mp hlen)
    subst this; rfl
  | succ fuel ih =>
    cases l with
    | nil => rfl
    | cons c cs =>
      have hcs : cs.length ≤ fuel := by
        simpa [Nat.succ_le_succ_iff] using hlen
      by_cases hc : c = '<'
      · rw [stripTagsF, if_pos hc]
        cases hd : dropTag cs with
        | some rest =>
          exact ih (Nat.le_of_lt (Nat.lt_of_lt_of_le (dropTag_some_length hd) hcs))
        | none =>
          rw [hasTag, Bool.or_eq_false_iff]
          refine ⟨?_, ih hcs⟩
          rw [Bool.and_eq_false_iff]
          right
          rcases of_dropTag_none hd with h1 | ⟨cs2, h1⟩ | h1
          · subst h1
            rw [stripTagsF_nil]
            rfl
          · subst h1
            cases fuel with
            | zero => simp at hcs
            | succ fuel2 =>
              have hgt : ('>' : Char) ≠ '<' := by decide
              rw [stripTagsF, if_neg hgt, dropTag]
              rfl
          · have : dropTag (stripTagsF fuel cs) = none :=
              dropTag_none_of_not_mem (fun hm => h1 (mem_stripTagsF hm))
            rw [this]
            rfl
      · rw [stripTagsF, if_neg hc, hasTag, Bool.or_eq_false_iff]
        refine ⟨?_, ih hcs⟩
        rw [Bool.and_eq_false_iff]
        left
        simpa using hc

theorem hasTag_stripTags (l : List Char) : hasTag (stripTags l) = false :=
  hasTag_stripTagsF (Nat.le_refl _)

theorem stripTagsF_fix {fuel : Nat} {l : List Char} (hlen : l.length ≤ fuel)
    (h : hasTag l = false) : stripTagsF fuel l = l := by
  induction fuel generalizing l with
  | zero =>
    have : l = [] := List.length_eq_zero.mp (Nat.le_zero.mp hlen)
    subst this; rfl
  | succ fuel ih =>
    cases l with
    | nil => rfl
    | cons c cs =>
      have hcs : cs.length ≤ fuel := by
        simpa [Nat.succ_le_succ_iff] using hlen
      have hcs2 : hasTag cs = false := hasTag_false_cons h
      by_cases hc : c = '<'
      · subst hc
        have hd : dropTag cs = none := dropTag_none_of_hasTag_lt h
        rw [stripTagsF, if_pos rfl, hd, ih hcs hcs2]
      · rw [stripTagsF, if_neg hc, ih hcs hcs2]

/-- Tag stripping is a projection: its output never contains another
`<[^>]+>` match, so a second pass is the identity. -/
theorem stripTags_idem (l : List Char) : stripTags (stripTags l) = stripTags l :=
  stripTagsF_fix (Nat.le_refl _) (hasTag_stripTags l)

theorem dropWhile_decomp (p : Char → Bool) (l : List Char) :
    ∃ t, t ++ l.dropWhile p = l := by
  induction l with
  | nil => exact ⟨[], rfl⟩
  | cons c cs ih =>
    by_cases h : p c
    · obtain ⟨t, ht⟩ := ih
      exact ⟨c :: t, by simp [List.dropWhile, h, ht]⟩
    · exact ⟨[], by simp [List.dropWhile, h]⟩

theorem hasTag_dropWhile {l : List Char} (p : Char → Bool) (h : hasTag l = false) :
    hasTag (l.dropWhile p) = false := by
  obtain ⟨t, ht⟩ := dropWhile_decomp p l
  rw [← ht] at h
  exact hasTag_false_suffix t h

theorem collapseWsF_nil (fuel : Nat) : collapseWsF fuel [] = [] := by
  cases fuel <;> rfl

theorem mem_collapseWsF {fuel : Nat} {l : List Char} {a : Char}
    (h : a ∈ collapseWsF fuel l) : a ∈ l ∨ a = ' ' := by
  induction fuel generalizing l with
  | zero => exact Or.inl (by simpa [collapseWsF] using h)
  | succ fuel ih =>
    cases l with
    | nil => simp [collapseWsF] at h
    | cons c cs =>
      by_cases hsp : isPySpace c
      · rw [collapseWsF, if_pos hsp] at h
        rcases List.mem_cons.mp h with h1 | h1
        · exact Or.inr h1
        · rcases ih h1 with h2 | h2
          · exact Or.inl (List.mem_cons_of_mem c ((List.dropWhile_sublist isPySpace).subset h2))
          · exact Or.inr h2
      · rw [collapseWsF, if_neg hsp] at h
        rcases List.mem_cons.mp h with h1 | h1
        · exact Or.inl (List.mem_cons.mpr (Or.inl h1))
        · rcases ih h1 with h2 | h2
          · exact Or.inl (List.mem_cons_of_mem c h2)
          · exact Or.inr h2

theorem hasTag_collapseWsF {fuel : Nat} {l : List Char} (hlen : l.length ≤ fuel)
    (h : hasTag l = false) : hasTag (collapseWsF fuel l) = false := by
  induction fuel generalizing l with
  | zero =>
    have : l = [] := List.length_eq_zero.mp (Nat.le_zero.mp hlen)
    subst this; rfl
  | succ fuel ih =>
    cases l with
    | nil => rfl
    | cons c cs =>
      have hcs : cs.length ≤ fuel := by
        simpa [Nat.succ_le_succ_iff] using hlen
      have hcs2 : hasTag cs = false := hasTag_false_cons h
      by_cases hsp : isPySpace c
      · rw [collapseWsF, if_pos hsp, hasTag, Bool.or_eq_false_iff]
        refine ⟨by rw [Bool.and_eq_false_iff]; left; decide, ?_⟩
        exact ih (Nat.le_trans ((List.dropWhile_sublist isPySpace).length_le) hcs)
          (hasTag_dropWhile isPySpace hcs2)
      · rw [collapseWsF, if_neg hsp, hasTag, Bool.or_eq_false_iff]
        refine ⟨?_, ih hcs hcs2⟩
        rw [Bool.and_eq_false_iff]
        by_cases hc : c = '<'
        · right
          subst hc
          have hd : dropTag cs = none := dropTag_none_of_hasTag_lt h
          rcases of_dropTag_none hd with h1 | ⟨cs2, h1⟩ | h1
          · subst h1
            rw [collapseWsF_nil]
            rfl
          · subst h1
            cases fuel with
            | zero => simp at hcs
            | succ fuel2 =>
              have hgt : ¬ (isPySpace '>' = true) := by decide
              rw [collapseWsF, if_neg hgt, dropTag]
              rfl
          · have : dropTag (collapseWsF fuel cs) = none := by
              refine dropTag_none_of_not_mem (fun hm => ?_)
              rcases mem_collapseWsF hm with h2 | h2
              · exact h1 h2
              · exact absurd h2 (by decide)
            rw [this]
            rfl
        · left
          simpa using hc

theorem skipDigits_some_decomp {cs rest : List Char} (h : skipDigits cs = some rest) :
    ∃ mid, cs = mid ++ ']' :: rest := by
  induction cs generalizing rest with
  | nil => simp [skipDigits] at h
  | cons c cs ih =>
    by_cases hc : c = ']'
    · subst hc
      simp only [skipDigits, if_true, reduceIte, Option.some.injEq] at h
      exact ⟨[], by simp [h]⟩
    · rw [skipDigits, if_neg hc] at h
      by_cases hd : c.isDigit
      · rw [if_pos hd] at h
        obtain ⟨mid, heq⟩ := ih h
        exact ⟨c :: mid, by simp [heq]⟩
      · rw [if_neg hd] at h
        exact absurd h (by simp)

theorem dropRef_some_decomp {cs rest : List Char} (h : dropRef cs = some rest) :
    ∃ mid, cs = mid ++ ']' :: rest := by
  cases cs with
  | nil => simp [dropRef] at h
  | cons c cs =>
    by_cases hd : c.isDigit
    · rw [dropRef, if_pos hd] at h
      obtain ⟨mid, heq⟩ := skipDigits_some_decomp h
      exact ⟨c :: mid, by simp [heq]⟩
    · rw [dropRef, if_neg hd] at h
      exact absurd h (by simp)

theorem dropRef_some_length {cs rest : List Char} (h : dropRef cs = some rest) :
    rest.length < cs.length := by
  obtain ⟨mid, heq⟩ := dropRef_some_decomp h
  subst heq
  simp only [List.length_append, List.length_cons]
  omega

theorem removeRefsF_nil (fuel : Nat) : removeRefsF fuel [] = [] := by
  cases fuel <;> rfl

theorem mem_removeRefsF {fuel : Nat} {l : List Char} {a : Char}
    (h : a ∈ removeRefsF fuel l) : a ∈ l := by
  induction fuel generalizing l with
  | zero => simpa [removeRefsF] using h
  | succ fuel ih =>
    cases l with
    | nil => simp [removeRefsF] at h
    | cons c cs =>
      by_cases hc : c = '['
      · rw [removeRefsF, if_pos hc] at h
        cases hd : dropRef cs with
        | some rest =>
          rw [hd] at h
          obtain ⟨mid, heq⟩ := dropRef_some_decomp hd
          refine List.mem_cons_of_mem c ?_
          rw [heq]
          simp [ih h]
        | none =>
          rw [hd] at h
          rcases List.mem_cons.mp h with h1 | h1
          · exact List.mem_cons.mpr (Or.inl h1)
          · exact List.mem_cons_of_mem c (ih h1)
      · rw [removeRefsF, if_neg hc] at h
        rcases List.mem_cons.mp h with h1 | h1
        · exact List.mem_cons.mpr (Or.inl h1)
        · exact List.mem_cons_of_mem c (ih h1)

theorem hasTag_removeRefsF {fuel : Nat} {l : List Char} (hlen : l.length ≤ fuel)
    (h : hasTag l = false) : hasTag (removeRefsF fuel l) = false := by
  induction fuel generalizing l with
  | zero =>
    have : l = [] := List.length_eq_zero.mp (Nat.le_zero.mp hlen)
    subst this; rfl
  | succ fuel ih =>
    cases l with
    | nil => rfl
    | cons c cs =>
      have hcs : cs.length ≤ fuel := by
        simpa [Nat.succ_le_succ_iff] using hlen
      have hcs2 : hasTag cs = false := hasTag_false_cons h
      by_cases hbr : c = '['
      · rw [removeRefsF, if_pos hbr]
        cases hd : dropRef cs with
        | some rest =>
          obtain ⟨mid, heq⟩ := dropRef_some_decomp hd
          have hrest : hasTag rest = false := by
            refine hasTag_false_suffix (mid ++ [']']) ?_
            rw [List.append_assoc]
            simpa [heq] using hcs2
          exact ih (Nat.le_of_lt (Nat.lt_of_lt_of_le (dropRef_some_length hd) hcs)) hrest
        | none =>
          rw [hasTag, Bool.or_eq_false_iff]
          refine ⟨?_, ih hcs hcs2⟩
          rw [Bool.and_eq_false_iff]
          left
          rw [hbr]
          decide
      · rw [removeRefsF, if_neg hbr, hasTag, Bool.or_eq_false_iff]
        refine ⟨?_, ih hcs hcs2⟩
        rw [Bool.and_eq_false_iff]
        by_cases hc : c = '<'
        · right
          subst hc
          have hd : dropTag cs = none := dropTag_none_of_hasTag_lt h
          rcases of_dropTag_none hd with h1 | ⟨cs2, h1⟩ | h1
          · subst h1
            rw [removeRefsF_nil]
            rfl
          · subst h1
            cases fuel with
            | zero => simp at hcs
            | succ fuel2 =>
              have hgt : ('>' : Char) ≠ '[' := by decide
              rw [removeRefsF, if_neg hgt, dropTag]
              rfl
          · have : dropTag (removeRefsF fuel cs) = none :=
              dropTag_none_of_not_mem (fun hm => h1 (mem_removeRefsF hm))
            rw [this]
            rfl
        · left
          simpa using hc

theorem hasTag_pyStrip {l : List Char} (h : hasTag l = false) :
    hasTag (pyStrip l) = false := by
  obtain ⟨t1, ht1⟩ := dropWhile_decomp isPySpace l
  obtain ⟨t2, ht2⟩ := dropWhile_decomp isPySpace (l.dropWhile isPySpace).reverse
  have hm : l.dropWhile isPySpace =
      ((l.dropWhile isPySpace).reverse.dropWhile isPySpace).reverse ++ t2.reverse := by
    conv_lhs => rw [← List.reverse_reverse (l.dropWhile isPySpace), ← ht2]
    rw [List.reverse_append]
  have hdecomp : l = t1 ++ pyStrip l ++ t2.reverse := by
    rw [pyStrip, List.append_assoc, ← hm, ht1]
  exact hasTag_false_infix (hdecomp ▸ h)

/-- The whole page-content cleaner leaves no `<[^>]+>` match in its output:
tag removal runs first and the later passes cannot manufacture one. -/
theorem hasTag_extract_text_from_html (html : String) :
    hasTag (extract_text_from_html html).data = false := by
  have h1 : hasTag (stripTags html.data) = false := hasTag_stripTags html.data
  have h2 : hasTag (collapseWs (stripTags html.data)) = false :=
    hasTag_collapseWsF (Nat.le_refl _) h1
  have h3 : hasTag (removeRefs (collapseWs (stripTags html.data))) = false :=
    hasTag_removeRefsF (Nat.le_refl _) h2
  exact hasTag_pyStrip h3

theorem joinNl_cons_cons (s t : String) (rest : List String) :
    joinNl (s :: t :: rest) = s ++ "\n" ++ joinNl (t :: rest) := rfl

theorem seqContains_newline_joinNl (p : String) (ps : List String) :
    SeqContains ('\n' :: (joinNl (p :: ps)).data) ((p :: ps).map String.data) := by
  induction ps generalizing p with
  | nil =>
    refine ⟨['\n'], [], by simp [joinNl], trivial⟩
  | cons q qs ih =>
    rw [joinNl_cons_cons]
    refine ⟨['\n'], '\n' :: (joinNl (q :: qs)).data, ?_, ih q⟩
    simp [String.data_append]

theorem seqContains_title_body (title body : String) (points : List String)
    (hbody : points ≠ [] → body = joinNl points) :
    SeqContains (title ++ "\n" ++ body).data (title.data :: points.map String.data) := by
  cases points with
  | nil =>
    refine ⟨[], ("\n" ++ body).data, ?_, trivial⟩
    simp [String.data_append]
  | cons p ps =>
    rw [hbody (by simp)]
    refine ⟨[], '\n' :: (joinNl (p :: ps)).data, ?_, seqContains_newline_joinNl p ps⟩
    simp [String.data_append]

theorem slideText_two_text_shapes (title : String) (paras : List Paragraph) :
    slideText { shapes := [.textShape [{ text := title, level := 0 }], .textShape paras] } =
      title ++ "\n" ++ joinNl (paras.map Paragraph.text) := rfl

theorem get_slide_text_concat (l : List PSlide) (s : PSlide) :
    get_slide_text { prs := l ++ [s] } (l.length : Int) = .ok (slideText s) := by
  have h1 : ¬ ((((l ++ [s]).length : Nat) : Int) ≤ (l.length : Int)) := by
    simp only [List.length_append, List.length_cons, List.length_nil]
    push_cast
    omega
  have h2 : ¬ ((l.length : Int) < 0) := by
    omega
  simp only [get_slide_text, h1, if_false, h2, Int.toNat_natCast,
    List.getElem?_concat_length]

/-! ## `Except String`, one bind at a time -/

theorem excBindOk {α β : Type} (v : α) (f : α → Except String β) :
    (Except.ok v >>= f) = f v := rfl

theorem excBindErr {α β : Type} (m : String) (f : α → Except String β) :
    ((Except.error m : Except String α) >>= f) = .error m := rfl

theorem excPure {α : Type} (v : α) : (pure v : Except String α) = .ok v := rfl

/-! ## Batch-helper iteration -/

theorem create_kb_foldl (language : String) (tr : String → Transport) :
    ∀ (topics : List String) (kb : List (String × WikipediaPage)),
      topics.Nodup →
      (∀ x ∈ topics, kb.any (fun p => p.1 = x) = false) →
      (topics.foldl
        (fun kb topic =>
          match get_page language (tr topic) topic true with
          | .ok (some page) => dictInsert kb topic page
          | .ok none => kb
          | .error _ => kb)
        kb) =
      kb ++ topics.filterMap
        (fun topic =>
          match get_page language (tr topic) topic true with
          | .ok (some p) => some (topic, p)
          | _ => none) := by
  intro topics
  induction topics with
  | nil => intro kb _ _; simp
  | cons topic rest ih =>
    intro kb hnd hfresh
    have hnd2 : rest.Nodup := (List.nodup_cons.mp hnd).2
    have hnotmem : topic ∉ rest := (List.nodup_cons.mp hnd).1
    rw [List.foldl_cons, List.filterMap_cons]
    cases hgp : get_page language (tr topic) topic true with
    | error e =>
      simp only [hgp]
      rw [ih kb hnd2 (fun x hx => hfresh x (List.mem_cons_of_mem topic hx))]
    | ok pageOpt =>
      cases pageOpt with
      | none =>
        simp only [hgp]
        rw [ih kb hnd2 (fun x hx => hfresh x (List.mem_cons_of_mem topic hx))]
      | some page =>
        simp only [hgp]
        have hins : dictInsert kb topic page = kb ++ [(topic, page)] := by
          unfold dictInsert
          rw [if_neg]
          rw [hfresh topic (List.mem_cons_self topic rest)]
          simp
        rw [hins]
        rw [ih (kb ++ [(topic, page)]) hnd2 ?fresh2]
        · simp
        case fresh2 =>
          intro x hx
          rw [List.any_append]
          rw [hfresh x (List.mem_cons_of_mem topic hx)]
          have : topic ≠ x := fun he => hnotmem (he ▸ hx)
          simp [this]

theorem get_slide_text_of_ge (t : PowerPointTool) (idx : Int)
    (h : (t.prs.length : Int) ≤ idx) :
    get_slide_text t idx = .ok "Slide index out of range" := by
  simp only [get_slide_text, if_pos h]

theorem get_page_ok_fields {language : String} {tr : Transport} {title : String}
    {il : Bool} {rec : WikipediaPage}
    (h : get_page language tr title il = .ok (some rec)) :
    rec.title = title ∧ rec.url = pageUrl language title := by
  unfold get_page at h
  cases hc : tr.content with
  | exn e => rw [hc] at h; exact absurd h (by simp)
  | resp status htmlBody =>
    rw [hc] at h
    dsimp only [] at h
    by_cases h404 : status = 404
    · rw [if_pos h404] at h
      exact absurd h (by simp)
    · rw [if_neg h404] at h
      by_cases herr : isHttpError status = true
      · rw [if_pos herr] at h
        exact absurd h (by simp)
      · rw [if_neg herr] at h
        cases hs : tr.summary with
        | exn e => rw [hs] at h; exact absurd h (by simp)
        | resp sst sbody =>
          rw [hs] at h
          dsimp only [] at h
          cases hcat : get_page_categories tr.categories with
          | error e =>
            rw [hcat, excBindErr] at h
            exact absurd h (by simp)
          | ok cats =>
            rw [hcat, excBindOk] at h
            by_cases hil : il = true
            · rw [if_pos hil] at h
              cases hl : get_page_links tr.links with
              | error e =>
                rw [hl, excBindErr] at h
                exact absurd h (by simp)
              | ok links =>
                rw [hl, excBindOk] at h
                cases hx : (if sst = 200 then sbody else Json.obj []).dGet "extract"
                    (Json.str "") with
                | error e =>
                  rw [hx, excBindErr] at h
                  exact absurd h (by simp)
                | ok extractJson =>
                  rw [hx, excBindOk] at h
                  cases hstr : extractJson.asString with
                  | error e =>
                    rw [hstr, excBindErr] at h
                    exact absurd h (by simp)
                  | ok summaryStr =>
                    rw [hstr, excBindOk, excPure] at h
                    have hrec := (Option.some.injEq _ _).mp ((Except.ok.injEq _ _).mp h)
                    rw [← hrec]
                    exact ⟨rfl, rfl⟩
            · rw [if_neg hil, excPure, excBindOk] at h
              cases hx : (if sst = 200 then sbody else Json.obj []).dGet "extract"
                  (Json.str "") with
              | error e =>
                rw [hx, excBindErr] at h
                exact absurd h (by simp)
              | ok extractJson =>
                rw [hx, excBindOk] at h
                cases hstr : extractJson.asString with
                | error e =>
                  rw [hstr, excBindErr] at h
                  exact absurd h (by simp)
                | ok summaryStr =>
                  rw [hstr, excBindOk, excPure] at h
                  have hrec := (Option.some.injEq _ _).mp ((Except.ok.injEq _ _).mp h)
                  rw [← hrec]
                  exact ⟨rfl, rfl⟩

/-! ## The claims -/

/-- C1 (amended): the guarantee that survives is about the tag-removal pass
shared by both cleaners, not about bare angle brackets or bracketed digit
tokens — the page-content cleaner's output never contains a well-formed tag
span (a `<`, one or more non-`>` characters, then `>`).  Bare `<`/`>`
characters pass through both cleaners, `_clean_html` never removes bracketed
digit tokens and can reintroduce angle brackets by entity decoding, and
nested brackets can leave a bracketed all-digit token even in
`_extract_text_from_html`'s output. -/
theorem claim_c1_amended (html : String) (pre mid post : List Char)
    (hne : mid ≠ []) (hm : '>' ∉ mid) :
    (extract_text_from_html html).data ≠ pre ++ '<' :: (mid ++ '>' :: post) := by
  intro heq
  have h1 := hasTag_extract_text_from_html html
  rw [heq, hasTag_of_decomp pre mid post hne hm] at h1
  simp at h1

/-- C1 witness: the amended theorem at a concrete input. -/
theorem claim_c1_witness :
    (['p'] : List Char) ≠ [] ∧ '>' ∉ (['p'] : List Char) ∧
      (extract_text_from_html "<i>x</i>").data ≠ [] ++ '<' :: (['p'] ++ '>' :: []) :=
  ⟨by decide, by decide, claim_c1_amended "<i>x</i>" [] ['p'] [] (by decide) (by decide)⟩

/-- C1 counterexample: both cleaners can output `<` and both can output a
bracketed all-digit token — a lone `<` survives `_extract_text_from_html`,
`[1[2]]` cleans to `[1]`, `_clean_html` decodes `&lt;` to `<` and leaves
`[12]` alone. -/
theorem claim_c1_counterexample :
    '<' ∈ (extract_text_from_html "<").data ∧
      extract_text_from_html "[1[2]]" = "[1]" ∧
      '<' ∈ (clean_html "&lt;").data ∧
      clean_html "[12]" = "[12]" := by decide

/-- C2 (amended): only the page-content cleaner `_extract_text_from_html`
computes the spec's four-step transform; `_clean_html` computes a different
transform (tag removal, HTML-entity decoding, trim — no whitespace collapse,
no reference-marker removal), so the two cleaners are not the same
function. -/
theorem claim_c2_amended : ∀ s : String, extract_text_from_html s = specTextClean s :=
  fun _ => rfl

/-- C2 counterexample: on `"a  b[1]"` the snippet cleaner returns the input
unchanged while the page-content cleaner (and the spec's transform) returns
`"a b"` — the two cleaners disagree, and `_clean_html` does not compute the
spec's four steps. -/
theorem claim_c2_counterexample :
    clean_html "a  b[1]" ≠ extract_text_from_html "a  b[1]" ∧
      clean_html "a  b[1]" ≠ specTextClean "a  b[1]" := by decide

/-- C3 (amended): the tag-removal pass shared by both cleaners is idempotent
— its output contains no further tag-span match, so a second pass returns
the same text; the two full cleaning transforms are not idempotent. -/
theorem claim_c3_amended : ∀ s : String, stripTags (stripTags s.data) = stripTags s.data :=
  fun s => stripTags_idem s.data

/-- C3 counterexample: re-cleaning changes already-cleaned text — cleaning
`[1[2]]` yields `[1]`, which a second pass deletes, and `_clean_html` turns
`&lt;a&gt;` into `<a>`, which a second pass strips as a tag. -/
theorem claim_c3_counterexample :
    extract_text_from_html (extract_text_from_html "[1[2]]") ≠
      extract_text_from_html "[1[2]]" ∧
      clean_html (clean_html "&lt;a&gt;") ≠ clean_html "&lt;a&gt;" := by decide

/-- C4: a 404 on the primary content fetch makes `get_page` return `None`
before any further call; no exception escapes. -/
theorem claim_c4 (language title body : String) (il : Bool) (tr : Transport)
    (h : tr.content = .resp 404 body) :
    get_page language tr title il = .ok none := by
  unfold get_page
  rw [h]
  simp

/-- C4 witness: the theorem at a concrete not-found transport. -/
theorem claim_c4_witness :
    notFoundTransport.content = FetchResult.resp 404 "not found" ∧
      get_page "en" notFoundTransport "Nonexistent" true = .ok none :=
  ⟨rfl, claim_c4 "en" "Nonexistent" "not found" true notFoundTransport rfl⟩

/-- C5 (amended): with the content call delivered, transport-level failures
of the categories and links calls degrade to empty sequences and a non-200
summary *response* degrades to an empty summary — but a transport-level
exception on the summary call is caught by `get_page`'s outer handler and
re-raised, so it does propagate (see the counterexample). -/
theorem claim_c5_amended (language title html e1 e2 : String) (sst : Nat) (sbody : Json)
    (tr : Transport) (hc : tr.content = .resp 200 html)
    (hs : tr.summary = .resp sst sbody) (hsst : sst ≠ 200)
    (hcat : tr.categories = .exn e1) (hl : tr.links = .exn e2) :
    get_page language tr title true = .ok (some
      { title := title
        content := extract_text_from_html html
        url := pageUrl language title
        summary := ""
        categories := []
        links := [] }) := by
  unfold get_page
  rw [hc, hs, hcat, hl]
  dsimp only []
  rw [if_neg (by decide : ¬ ((200 : Nat) = 404)),
    if_neg (by decide : ¬ (isHttpError 200 = true)), if_neg hsst]
  rfl

/-- C5 witness: the amended theorem at a concrete degraded transport. -/
theorem claim_c5_witness :
    degradedTransport.content = FetchResult.resp 200 "<p>Hi</p>" ∧
      degradedTransport.summary = FetchResult.resp 503 Json.null ∧
      (503 : Nat) ≠ 200 ∧
      get_page "en" degradedTransport "Topic" true = .ok (some
        { title := "Topic"
          content := extract_text_from_html "<p>Hi</p>"
          url := pageUrl "en" "Topic"
          summary := ""
          categories := []
          links := [] }) :=
  ⟨rfl, rfl, by decide,
    claim_c5_amended "en" "Topic" "<p>Hi</p>" "timeout" "timeout" 503 Json.null
      degradedTransport rfl rfl (by decide) rfl rfl⟩

/-- C5 counterexample: the content call succeeds with 200 but the summary
call raises at the transport level, and `get_page` raises instead of
returning a record with an empty summary. -/
theorem claim_c5_counterexample :
    get_page "en" summaryRaisesTransport "Title" true =
      .error "Failed to retrieve page Title: connection reset" := rfl

/-- C6 (amended): `create_knowledge_base` processes every topic and collects
exactly the successful retrievals — a per-topic failure or missing page is
skipped, never propagated; `search_and_summarize`, by contrast, wraps its
per-item `get_summary` calls in no handler, so one raising summary call
aborts the whole batch (see the counterexample). -/
theorem claim_c6_amended (language : String) (tr : String → Transport)
    (topics : List String) (h : topics.Nodup) :
    create_knowledge_base language tr topics =
      topics.filterMap (fun topic =>
        match get_page language (tr topic) topic true with
        | .ok (some p) => some (topic, p)
        | _ => none) := by
  unfold create_knowledge_base
  simpa using create_kb_foldl language tr topics [] h (fun x _ => rfl)

/-- C6 witness: a batch whose first topic is unreachable still yields the
second topic's page. -/
theorem claim_c6_witness :
    (["Alpha", "Beta"] : List String).Nodup ∧
      create_knowledge_base "en" kbTransports ["Alpha", "Beta"] =
        (["Alpha", "Beta"] : List String).filterMap (fun topic =>
          match get_page "en" (kbTransports topic) topic true with
          | .ok (some p) => some (topic, p)
          | _ => none) :=
  ⟨by decide, claim_c6_amended "en" kbTransports ["Alpha", "Beta"] (by decide)⟩

/-- C6 counterexample: `search_and_summarize` with one search result whose
summary call raises propagates the error instead of skipping the item. -/
theorem claim_c6_counterexample :
    search_and_summarize "en" sasRaisingTransport =
      .error "Failed to get summary for T: boom" := rfl

/-- C7: after `add_content_slide(title, points)`, reading the new slide's
index back with `get_slide_text` yields the title shape's text and the
content shape's text joined by newlines; that text contains the title and
then every point, in their given order, and the content placeholder holds
exactly one level-0 paragraph per point. -/
theorem claim_c7 (t : PowerPointTool) (title : String) (points : List String) :
    get_slide_text (add_content_slide t title points) (t.prs.length : Int) =
      .ok (title ++ "\n" ++ joinNl ((contentParas points).map Paragraph.text)) ∧
      SeqContains
        (title ++ "\n" ++ joinNl ((contentParas points).map Paragraph.text)).data
        (title.data :: points.map String.data) ∧
      (add_content_slide t title points).prs.getLast? =
        some { shapes := [.textShape [{ text := title, level := 0 }],
                          .textShape (contentParas points)] } := by
  refine ⟨?_, ?_, ?_⟩
  · have h := get_slide_text_concat t.prs
      { shapes := [.textShape [{ text := title, level := 0 }],
                   .textShape (contentParas points)] }
    rw [slideText_two_text_shapes] at h
    exact h
  · refine seqContains_title_body title _ points ?_
    intro hne
    cases points with
    | nil => exact absurd rfl hne
    | cons p ps =>
      have hmap : (((p :: ps).map fun q => ({ text := q, level := 0 } : Paragraph)).map
          Paragraph.text) = p :: ps := by
        rw [List.map_map]
        exact List.map_id _
      show joinNl ((contentParas (p :: ps)).map Paragraph.text) = joinNl (p :: ps)
      unfold contentParas
      rw [hmap]
  · exact List.getLast?_concat _

/-- C7 witness: the theorem at a concrete presentation. -/
theorem claim_c7_witness :
    get_slide_text (add_content_slide newPresentation "Topic" ["A", "B"]) 0 =
      .ok ("Topic" ++ "\n" ++ joinNl ((contentParas ["A", "B"]).map Paragraph.text)) ∧
      SeqContains
        ("Topic" ++ "\n" ++ joinNl ((contentParas ["A", "B"]).map Paragraph.text)).data
        ("Topic".data :: (["A", "B"] : List String).map String.data) ∧
      (add_content_slide newPresentation "Topic" ["A", "B"]).prs.getLast? =
        some { shapes := [.textShape [{ text := "Topic", level := 0 }],
                          .textShape (contentParas ["A", "B"])] } :=
  claim_c7 newPresentation "Topic" ["A", "B"]

/-- C8 (amended): `get_slide_text` returns the sentinel exactly for indices
at or beyond the slide count — the guard is `slide_index >= len(...)` only —
while negative indices are resolved from the end of the deck as Python
sequences do: in range they return that slide's text, below `-len` they
raise `IndexError` (see the counterexample). -/
theorem claim_c8_amended (t : PowerPointTool) (idx : Int)
    (h : (t.prs.length : Int) ≤ idx) :
    get_slide_text t idx = .ok "Slide index out of range" :=
  get_slide_text_of_ge t idx h

/-- C8 witness: index 0 on an empty presentation gets the sentinel. -/
theorem claim_c8_witness :
    ((newPresentation.prs.length : Int) ≤ 0) ∧
      get_slide_text newPresentation 0 = .ok "Slide index out of range" :=
  ⟨by decide, claim_c8_amended newPresentation 0 (by decide)⟩

/-- C8 counterexample: index `-1` is out of range on an empty presentation
yet raises `IndexError` instead of returning the sentinel, and on a deck of
one slide it returns that slide's text. -/
theorem claim_c8_counterexample :
    get_slide_text newPresentation (-1) =
      .error "IndexError: slide index out of range" ∧
      get_slide_text (add_title_slide newPresentation "T" "S") (-1) = .ok "T\nS" := by
  exact ⟨rfl, rfl⟩

/-- C9 (amended): loading a missing path only prints a message and leaves
the in-memory Presentation exactly as it was — which is the default empty
state only when no slide had been added; prior slides survive (see the
counterexample). -/
theorem claim_c9_amended (fs : String → Option (List PSlide)) (t : PowerPointTool)
    (path : String) (h : fs path = none) :
    load_presentation fs t path = t := by
  unfold load_presentation
  rw [h]

/-- C9 witness: the theorem on a fresh tool and an empty filesystem. -/
theorem claim_c9_witness :
    emptyFs "deck.pptx" = none ∧
      load_presentation emptyFs newPresentation "deck.pptx" = newPresentation :=
  ⟨rfl, claim_c9_amended emptyFs newPresentation "deck.pptx" rfl⟩

/-- C9 counterexample: after one slide is added, loading a missing path
leaves one slide, not the claimed zero. -/
theorem claim_c9_counterexample :
    get_slide_count (load_presentation emptyFs
      (add_title_slide newPresentation "T" "S") "deck.pptx") ≠ 0 := by decide

/-- C10: every page record `get_page` returns carries the input title
verbatim and the URL built by concatenating the language-scoped base address
with the percent-encoded input title. -/
theorem claim_c10 (language : String) (tr : Transport) (title : String) (il : Bool)
    (rec : WikipediaPage) (h : get_page language tr title il = .ok (some rec)) :
    rec.title = title ∧
      rec.url = "https://" ++ language ++ ".wikipedia.org/wiki/" ++ pyQuote title :=
  get_page_ok_fields h

/-- C10 witness: a successful fetch of the title `"A B"` records that title
and the URL percent-encoding the space. -/
theorem claim_c10_witness :
    get_page "en" successTransport "A B" true = .ok (some successPage) ∧
      successPage.title = "A B" ∧
      successPage.url = "https://" ++ "en" ++ ".wikipedia.org/wiki/" ++ pyQuote "A B" := by
  have h : get_page "en" successTransport "A B" true = .ok (some successPage) := rfl
  exact ⟨h, (claim_c10 "en" successTransport "A B" true successPage h).1,
    (claim_c10 "en" successTransport "A B" true successPage h).2⟩
